import Mathlib

/-!
Verification development for the Moxfield collection analyzer
(`src/initial_pull/data_pull.py`).  The Python module is shallowly embedded:
dictionaries with a fixed field set become structures with `Option` fields
(`None`/absent key = `Option.none`), `dict.get(k, d)` becomes `Option.getD`,
a bare `dict[k]` lookup that can raise `KeyError` becomes a bind in
`Except Unit`, and the two mutable collection dictionaries on the
`DeckDataFetcher` object become an explicit `FetcherState` threaded through
the functions.  A returned `.error ()` models a raised Python exception
propagating to the caller.  Python string methods used by the enum parsers
(`strip`, `upper`, `lower`, `capitalize`) are embedded for the ASCII
character range, which covers every string the module compares against.
-/

/-- Python `str.strip` whitespace predicate (ASCII whitespace). -/
def pyIsSpace (c : Char) : Bool :=
  c = ' ' || c = '\t' || c = '\n' || c = '\r' || c = '\x0b' || c = '\x0c'

/-- Python `value.strip()`: remove leading and trailing whitespace. -/
def pyStrip (s : String) : String :=
  String.mk (((s.toList.dropWhile pyIsSpace).reverse.dropWhile pyIsSpace).reverse)

/-- Python `value.upper()` (ASCII range). -/
def pyUpper (s : String) : String :=
  String.mk (s.toList.map Char.toUpper)

/-- Python `value.lower()` (ASCII range). -/
def pyLower (s : String) : String :=
  String.mk (s.toList.map Char.toLower)

/-- Python `value.capitalize()`: first character upper-cased, rest lower-cased. -/
def pyCapitalize (s : String) : String :=
  match s.toList with
  | [] => ""
  | c :: cs => String.mk (Char.toUpper c :: cs.map Char.toLower)

/-- The `Rarity` enumeration of `data_pull.py`. -/
inductive Rarity where
  | COMMON
  | UNCOMMON
  | RARE
  | MYTHIC
  | SPECIAL
  | UNKNOWN
deriving DecidableEq, Repr

/-- The string `value` of each `Rarity` member. -/
def Rarity.value : Rarity → String
  | .COMMON => "COMMON"
  | .UNCOMMON => "UNCOMMON"
  | .RARE => "RARE"
  | .MYTHIC => "MYTHIC"
  | .SPECIAL => "SPECIAL"
  | .UNKNOWN => "UNKNOWN"

/-- The members of `Rarity` in declaration order (Python `for rarity in cls`). -/
def Rarity.members : List Rarity :=
  [.COMMON, .UNCOMMON, .RARE, .MYTHIC, .SPECIAL, .UNKNOWN]

/-- `Rarity.from_string`: normalize with `strip().upper()`, return the first
member whose value matches, else `UNKNOWN`. -/
def Rarity.from_string (value : String) : Rarity :=
  let normalized_value := pyUpper (pyStrip value)
  match Rarity.members.find? (fun r => r.value = normalized_value) with
  | some r => r
  | none => .UNKNOWN

/-- The `DeckFormat` enumeration of `data_pull.py`. -/
inductive DeckFormat where
  | STANDARD
  | BRAWL
  | PIONEER
  | COMMANDER
  | TIMELESS
  | ALCHEMY
  | HISTORIC
  | NONE
  | OTHER
deriving DecidableEq, Repr

/-- The string `value` of each `DeckFormat` member. -/
def DeckFormat.value : DeckFormat → String
  | .STANDARD => "Standard"
  | .BRAWL => "HistoricBrawl"
  | .PIONEER => "Pioneer"
  | .COMMANDER => "Commander"
  | .TIMELESS => "Timeless"
  | .ALCHEMY => "Alchemy"
  | .HISTORIC => "Historic"
  | .NONE => "None"
  | .OTHER => "Other"

/-- The members of `DeckFormat` in declaration order. -/
def DeckFormat.members : List DeckFormat :=
  [.STANDARD, .BRAWL, .PIONEER, .COMMANDER, .TIMELESS, .ALCHEMY, .HISTORIC, .NONE, .OTHER]

/-- `DeckFormat.from_string`: normalize with `strip().capitalize()`, compare
lower-cased against each member value; raises `ValueError` (modelled as
`.error ()`) when nothing matches. -/
def DeckFormat.from_string (value : String) : Except Unit DeckFormat :=
  let normalized_value := pyCapitalize (pyStrip value)
  match DeckFormat.members.find? (fun f => pyLower f.value = pyLower normalized_value) with
  | some f => .ok f
  | none => .error ()

/-- The `Card` dataclass. -/
structure Card where
  unique_id : String
  scryfall_id : String
  name : String
  cmc : Int
  type_line : String
  colors : List String
  rarity : Rarity
  max_quantity : Int
deriving DecidableEq, Repr

/-- The `CollectionWildcardTally` dataclass: a Python dict from `unique_id`
to `Card`, embedded as an insertion-ordered association list with unique
keys. -/
structure CollectionWildcardTally where
  cards : List (String × Card)
deriving DecidableEq, Repr

/-- The two collection dictionaries held by a `DeckDataFetcher` instance. -/
structure FetcherState where
  standard_wildcard_tally : CollectionWildcardTally
  historic_brawl_wildcard_tally : CollectionWildcardTally
deriving DecidableEq, Repr

/-- The fetcher state right after `DeckDataFetcher.__init__`: both
collections empty. -/
def emptyState : FetcherState := ⟨⟨[]⟩, ⟨[]⟩⟩

/-- Python `d[k]` lookup on an association list (first binding wins; the
operations below keep keys unique, matching a Python dict). -/
def dget {α : Type} : List (String × α) → String → Option α
  | [], _ => none
  | (k, v) :: rest, x => if k = x then some v else dget rest x

/-- Python `d[k] = v`: replace the first binding of `k` in place, or append. -/
def dset {α : Type} : List (String × α) → String → α → List (String × α)
  | [], k, v => [(k, v)]
  | (k', v') :: rest, k, v =>
      if k' = k then (k', v) :: rest else (k', v') :: dset rest k v

/-- The in-place `cards[unique_id].max_quantity = max_quantity` update guarded
by `cards[unique_id].max_quantity < max_quantity` in
`add_card_to_collection`: the binding of `k` is updated in place, every other
binding is untouched. -/
def updateMaxQty : List (String × Card) → String → Int → List (String × Card)
  | [], _, _ => []
  | (k', c) :: rest, k, q =>
    if k' = k then
      (k', if c.max_quantity < q then { c with max_quantity := q } else c) :: rest
    else (k', c) :: updateMaxQty rest k q

/-- The nested `card` object of one deck-list entry.  Every field that the
code reads with a raising `card[...]` access or a defaulted `card.get(...)`
is an `Option` (absent key = `none`).  `cmc` is embedded as the integer that
`int(card["cmc"])` produces. -/
structure CardObj where
  uniqueCardId : Option String
  scryfall_id : Option String
  name : Option String
  cmc : Option Int
  type_line : Option String
  colors : Option (List String)
  rarity : Option String
deriving DecidableEq, Repr

/-- The empty dict `{}` used as the default for `card_entry.get("card", {})`. -/
def CardObj.emptyDict : CardObj := ⟨none, none, none, none, none, none, none⟩

/-- One board entry: the nested `card` object and the `quantity` field. -/
structure CardEntry where
  card : Option CardObj
  quantity : Option Int
deriving DecidableEq, Repr

/-- One board: the `cards` keyed map, embedded as its values in iteration
order. -/
structure Board where
  cards : Option (List CardEntry)
deriving DecidableEq, Repr

/-- The `boards` object of a deck payload. -/
structure Boards where
  mainboard : Option Board
  sideboard : Option Board
deriving DecidableEq, Repr

/-- A deck-detail payload as read by `process_data_to_DeckWildcardTally`. -/
structure DeckData where
  name : Option String
  publicUrl : Option String
  format : Option String
  lastUpdatedAtUtc : Option String
  boards : Option Boards
deriving DecidableEq, Repr

/-- The `DeckWildcardTally` dataclass. -/
structure DeckWildcardTally where
  deck_name : String
  url : String
  format : DeckFormat
  last_updated_at : Option String
  common : Int
  uncommon : Int
  rare : Int
  mythic : Int
  special : Int
deriving DecidableEq, Repr

/-- A raising Python `d[key]` access: `KeyError` when the key is absent. -/
def keyGet {α : Type} : Option α → Except Unit α
  | some a => .ok a
  | none => .error ()

/-- The format branch at the end of `add_card_to_collection`: `if deck_format
== DeckFormat.BRAWL: ... elif deck_format == DeckFormat.STANDARD: ...` with
the membership test, guarded max update, and insertion on each branch. -/
def applyFormatUpdate (deck_format : DeckFormat) (unique_id : String) (max_quantity : Int)
    (new_card : Card) (s : FetcherState) : FetcherState :=
  if deck_format = DeckFormat.BRAWL then
    if (dget s.historic_brawl_wildcard_tally.cards unique_id).isSome then
      { s with historic_brawl_wildcard_tally :=
          ⟨updateMaxQty s.historic_brawl_wildcard_tally.cards unique_id max_quantity⟩ }
    else
      { s with historic_brawl_wildcard_tally :=
          ⟨s.historic_brawl_wildcard_tally.cards ++ [(unique_id, new_card)]⟩ }
  else if deck_format = DeckFormat.STANDARD then
    if (dget s.standard_wildcard_tally.cards unique_id).isSome then
      { s with standard_wildcard_tally :=
          ⟨updateMaxQty s.standard_wildcard_tally.cards unique_id max_quantity⟩ }
    else
      { s with standard_wildcard_tally :=
          ⟨s.standard_wildcard_tally.cards ++ [(unique_id, new_card)]⟩ }
  else s

/-- `DeckDataFetcher.add_card_to_collection`.  The raising `card_data["card"]`
and `card[...]` field accesses happen before any collection mutation, so an
`.error ()` result models a `KeyError` raised with both collections still
untouched. -/
def add_card_to_collection (card_data : CardEntry) (deck_format : DeckFormat)
    (s : FetcherState) : Except Unit FetcherState := do
  let card ← keyGet card_data.card
  let unique_id ← keyGet card.uniqueCardId
  let scryfall_id ← keyGet card.scryfall_id
  let name ← keyGet card.name
  let cmc ← keyGet card.cmc
  let type_line ← keyGet card.type_line
  let colors := card.colors.getD []
  let rarity := Rarity.from_string (card.rarity.getD "UNKNOWN")
  let max_quantity := card_data.quantity.getD 0
  let new_card : Card :=
    ⟨unique_id, scryfall_id, name, cmc, type_line, colors, rarity, max_quantity⟩
  pure (applyFormatUpdate deck_format unique_id max_quantity new_card s)

/-- The rarity-bucket `if/elif` chain of `process_data_to_DeckWildcardTally`
(the final `else` only logs). -/
def bucketAdd (tally : DeckWildcardTally) (rarity_str : String) (quantity : Int) :
    DeckWildcardTally :=
  if rarity_str = "common" then { tally with common := tally.common + quantity }
  else if rarity_str = "uncommon" then { tally with uncommon := tally.uncommon + quantity }
  else if rarity_str = "rare" then { tally with rare := tally.rare + quantity }
  else if rarity_str = "mythic" then { tally with mythic := tally.mythic + quantity }
  else if rarity_str = "special" then { tally with special := tally.special + quantity }
  else tally

/-- The `for card_entry in all_cards` loop body of
`process_data_to_DeckWildcardTally`: fold the entry into the collection
first (possibly raising), then accumulate the entry quantity (default 1)
into the rarity bucket selected by `card.get("rarity", "").lower()`. -/
def processEntries (deck_format : DeckFormat) :
    DeckWildcardTally → FetcherState → List CardEntry →
    Except Unit (DeckWildcardTally × FetcherState)
  | tally, s, [] => .ok (tally, s)
  | tally, s, card_entry :: rest =>
    match add_card_to_collection card_entry deck_format s with
    | .error e => .error e
    | .ok s' =>
      let card_info := card_entry.card.getD CardObj.emptyDict
      let rarity_str := pyLower (card_info.rarity.getD "")
      let quantity := card_entry.quantity.getD 1
      processEntries deck_format (bucketAdd tally rarity_str quantity) s' rest

/-- The `mainboard + sideboard` entry list read through the defaulted
`boards.get(...)` chain. -/
def allCards (deck_data : DeckData) : List CardEntry :=
  let boards := deck_data.boards.getD ⟨none, none⟩
  let mainboard_cards := (boards.mainboard.getD ⟨none⟩).cards.getD []
  let sideboard_cards := (boards.sideboard.getD ⟨none⟩).cards.getD []
  mainboard_cards ++ sideboard_cards

/-- `DeckDataFetcher.process_data_to_DeckWildcardTally`: defaults for name,
url and format, `DeckFormat.from_string` with `OTHER` on `ValueError`, then
the per-entry loop over mainboard plus sideboard. -/
def process_data_to_DeckWildcardTally (deck_data : DeckData) (s : FetcherState) :
    Except Unit (DeckWildcardTally × FetcherState) :=
  let deck_name := deck_data.name.getD "Unknown Deck"
  let public_url := deck_data.publicUrl.getD ""
  let raw_format := deck_data.format.getD "standard"
  let deck_format :=
    match DeckFormat.from_string raw_format with
    | .ok f => f
    | .error _ => DeckFormat.OTHER
  let tally : DeckWildcardTally :=
    ⟨deck_name, public_url, deck_format, deck_data.lastUpdatedAtUtc, 0, 0, 0, 0, 0⟩
  processEntries deck_format tally s (allCards deck_data)

/-- Given the characters following a matched closing `>`, return the capture
of the lazy group `(.*?)` up to the first occurrence of the literal
`</pre>`, or `none` when that literal never occurs. -/
def captureBody : List Char → Option (List Char)
  | [] => none
  | c :: rest =>
    if (c :: rest).take 6 = "</pre>".toList then some []
    else (captureBody rest).map (fun body => c :: body)

/-- Given the characters following a literal `<pre`, find the first `>` whose
remainder still contains `</pre>` (the lazy `.*?>` with backtracking) and
return the capture group. -/
def afterPre : List Char → Option (List Char)
  | [] => none
  | c :: rest =>
    if c = '>' then
      match captureBody rest with
      | some body => some body
      | none => afterPre rest
    else afterPre rest

/-- Try to match the pattern with its start anchored at the head of the given
character list. -/
def matchPreAt (cs : List Char) : Option (List Char) :=
  if cs.take 4 = "<pre".toList then afterPre (cs.drop 4) else none

/-- The leftmost-match semantics of `re.search(r'<pre.*?>(.*?)</pre>', s,
re.DOTALL)`: try each start position from the left, returning the first
successful capture group. -/
def reSearchPre : List Char → Option (List Char)
  | [] => matchPreAt []
  | c :: rest =>
    match matchPreAt (c :: rest) with
    | some body => some body
    | none => reSearchPre rest

/-- `DeckDataFetcher._extract_data`, generic in the payload type produced by
`json.loads`.  `loads` models the JSON parser (its `.error` outcome is a
raised `json.JSONDecodeError`) and `empty` models the empty dict.  The
`try/except JSONDecodeError` is embedded by mapping the parser's error to
`.ok empty`; a missing marker also yields `.ok empty`.  The function is pure
in its `page_source` argument. -/
def extract_data {α : Type} (empty : α) (loads : String → Except Unit α)
    (page_source : String) : Except Unit α :=
  match reSearchPre page_source.toList with
  | some body =>
    match loads (String.mk body) with
    | .ok parsed => .ok parsed
    | .error _ => .ok empty
  | none => .ok empty

/-- The `for url in urls` loop of `DeckDataFetcher.fetch_and_extract_data`:
fetch each page (a raised provider error propagates out of the whole call),
extract its payload, and store it in the `data_map` dict. -/
def fetchLoop {α : Type} (empty : α) (loads : String → Except Unit α)
    (fetchPage : String → Except Unit String) :
    List String → List (String × α) → Except Unit (List (String × α))
  | [], data_map => .ok data_map
  | url :: rest, data_map =>
    match fetchPage url with
    | .error e => .error e
    | .ok page_source =>
      match extract_data empty loads page_source with
      | .error e => .error e
      | .ok data_dict => fetchLoop empty loads fetchPage rest (dset data_map url data_dict)

/-- `DeckDataFetcher.fetch_and_extract_data`: visit every URL sequentially,
building the `url -> payload` dict; a provider failure on any URL raises and
the call produces no mapping at all. -/
def fetch_and_extract_data {α : Type} (empty : α) (loads : String → Except Unit α)
    (fetchPage : String → Except Unit String) (urls : List String) :
    Except Unit (List (String × α)) :=
  fetchLoop empty loads fetchPage urls []

/-- The `chunked` helper of `scan_decklists_from_profile` and
`retrieve_and_process_deck_data`: contiguous slices `iterable[i : i + n]`
for `i in range(0, len(iterable), n)`.  (Python raises on `n = 0`; the
embedding returns no chunks there, and every claim uses `0 < n`.) -/
def chunked {α : Type} : List α → Nat → List (List α)
  | [], _ => []
  | _ :: _, 0 => []
  | x :: xs, n + 1 => ((x :: xs).take (n + 1)) :: chunked ((x :: xs).drop (n + 1)) (n + 1)
termination_by l _ => l.length
decreasing_by
  simp only [List.length_drop, List.length_cons]
  omega

/-- Python `dict.update`-style union: set every binding of `m` into `acc` in
order (the per-batch maps are merged into the caller's view this way). -/
def dunion {α : Type} (acc m : List (String × α)) : List (String × α) :=
  m.foldl (fun a p => dset a p.1 p.2) acc

/-- The chunk-level composition used by both `scan_decklists_from_profile`
and `retrieve_and_process_deck_data`: partition the URLs with `chunked`,
run `fetch_and_extract_data` on each batch, and take the union of the
per-batch mappings; a batch whose fetch raised is caught by the caller's
`try/except` and contributes no entries. -/
def fetchAllLoop {α : Type} (empty : α) (loads : String → Except Unit α)
    (fetchPage : String → Except Unit String) :
    List (List String) → List (String × α) → List (String × α)
  | [], acc => acc
  | chunk :: rest, acc =>
    match fetch_and_extract_data empty loads fetchPage chunk with
    | .ok data_map => fetchAllLoop empty loads fetchPage rest (dunion acc data_map)
    | .error _ => fetchAllLoop empty loads fetchPage rest acc

/-- `fetchAll(urls, chunkSize)`: the batch fetch operation of §4.3 as the two
call sites compose it. -/
def fetchAll {α : Type} (empty : α) (loads : String → Except Unit α)
    (fetchPage : String → Except Unit String) (urls : List String) (chunkSize : Nat) :
    List (String × α) :=
  fetchAllLoop empty loads fetchPage (chunked urls chunkSize) []

deriving instance DecidableEq for Except

/-- The collection that a tracked deck format feeds
(`historic_brawl_wildcard_tally` for `BRAWL`, `standard_wildcard_tally` for
`STANDARD`). -/
def targetCards (f : DeckFormat) (s : FetcherState) : List (String × Card) :=
  match f with
  | .BRAWL => s.historic_brawl_wildcard_tally.cards
  | _ => s.standard_wildcard_tally.cards

/-- One merge step on the stored `max_quantity` for a key: a fresh insert
stores the incoming quantity, an existing entry is raised only when strictly
smaller. -/
def stepMax (o : Option Int) (q : Int) : Int :=
  match o with
  | none => q
  | some m => if m < q then q else m

/-- The `uniqueCardId` of an entry, when present. -/
def entryId (e : CardEntry) : Option String :=
  e.card.bind CardObj.uniqueCardId

/-- The quantity that `add_card_to_collection` folds in:
`card_data.get("quantity", 0)`. -/
def entryQty (e : CardEntry) : Int :=
  e.quantity.getD 0

/-- The quantities of the entries of `l` whose `uniqueCardId` is `x`. -/
def qsOf (l : List CardEntry) (x : String) : List Int :=
  l.filterMap (fun e => if entryId e = some x then some (entryQty e) else none)

/-- A sequence of `add_card_to_collection` calls for one deck format, as the
per-deck loop performs them. -/
def foldEntries (f : DeckFormat) : List CardEntry → FetcherState → Except Unit FetcherState
  | [], s => .ok s
  | e :: rest, s =>
    match add_card_to_collection e f s with
    | .ok s' => foldEntries f rest s'
    | .error err => .error err

/-- The `Card` object that `add_card_to_collection` builds from a
well-formed entry (every required field present, so each `getD` returns the
stored value). -/
def mkNewCard (co : CardObj) (e : CardEntry) : Card :=
  ⟨co.uniqueCardId.getD "", co.scryfall_id.getD "", co.name.getD "", co.cmc.getD 0,
   co.type_line.getD "", co.colors.getD [], Rarity.from_string (co.rarity.getD "UNKNOWN"),
   e.quantity.getD 0⟩

/-- The payload the batch pipeline associates with one URL: `none` when the
page fetch raises, otherwise the (never-raising) extraction result. -/
def fetchedValue {α : Type} (empty : α) (loads : String → Except Unit α)
    (fetchPage : String → Except Unit String) (url : String) : Option α :=
  match fetchPage url with
  | .ok page =>
    match extract_data empty loads page with
    | .ok a => some a
    | .error _ => none
  | .error _ => none

/-- An entry on which `add_card_to_collection` raises `KeyError`: the nested
`card` object or one of its bare-lookup fields is absent. -/
def entryMissingField (e : CardEntry) : Bool :=
  match e.card with
  | none => true
  | some co =>
    co.uniqueCardId.isNone || co.scryfall_id.isNone || co.name.isNone ||
    co.cmc.isNone || co.type_line.isNone

/-- Collection evolution invariant: no key disappears and no stored
`max_quantity` decreases. -/
def collMono (c c' : List (String × Card)) : Prop :=
  ∀ x v, dget c x = some v →
    ∃ v', dget c' x = some v' ∧ v.max_quantity ≤ v'.max_quantity

/-- `collMono` for both format-scoped collections of the fetcher state. -/
def stateMono (s s' : FetcherState) : Prop :=
  collMono s.standard_wildcard_tally.cards s'.standard_wildcard_tally.cards ∧
  collMono s.historic_brawl_wildcard_tally.cards s'.historic_brawl_wildcard_tally.cards

/-- The five lower-cased rarity strings that select a bucket. -/
def bucketTiers : List String :=
  ["common", "uncommon", "rare", "mythic", "special"]

/-- A well-formed entry with the given id, quantity and rarity string. -/
def mkEntryR (id : String) (q : Int) (r : String) : CardEntry :=
  ⟨some ⟨some id, some "sc", some id, some 0, some "T", some [], some r⟩, some q⟩

/-- A well-formed entry whose nested card has no `rarity` key. -/
def mkEntryNoRarity (id : String) (q : Int) : CardEntry :=
  ⟨some ⟨some id, some "sc", some id, some 0, some "T", some [], none⟩, some q⟩

/-- The `Card` that merging `mkEntryR`/`mkEntryNoRarity` inserts. -/
def mkEntryCard (id : String) (q : Int) (r : Option String) : Card :=
  ⟨id, "sc", id, 0, "T", [], Rarity.from_string (r.getD "UNKNOWN"), q⟩

/-- The maximum of a list of quantities, `none` for the empty list. -/
def listMaxOpt : List Int → Option Int
  | [] => none
  | q :: qs => some (qs.foldl max q)

/-- Project the state out of a successful fold, defaulting to `emptyState`. -/
def okS (r : Except Unit FetcherState) : FetcherState :=
  match r with
  | .ok s => s
  | .error _ => emptyState

/-- Project the result out of a successful deck processing run. -/
def okPair (r : Except Unit (DeckWildcardTally × FetcherState)) :
    DeckWildcardTally × FetcherState :=
  match r with
  | .ok p => p
  | .error _ => (⟨"", "", .NONE, none, 0, 0, 0, 0, 0⟩, emptyState)

/-- Concrete card A: common, used by the end-to-end scenarios. -/
def cardA : CardObj :=
  ⟨some "A", some "scA", some "Card A", some 1, some "Creature", some ["G"], some "common"⟩

/-- Concrete card B: mythic. -/
def cardB : CardObj :=
  ⟨some "B", some "scB", some "Card B", some 3, some "Sorcery", some ["R"], some "mythic"⟩

/-- Concrete card whose rarity string carries surrounding whitespace. -/
def cardPad : CardObj :=
  ⟨some "A", some "scA", some "Card A", some 1, some "Creature", some ["G"], some " common "⟩

/-- Concrete card lacking the `uniqueCardId` key. -/
def cardNoId : CardObj :=
  ⟨none, some "scC", some "Card C", some 2, some "Instant", some [], some "rare"⟩

/-- The end-to-end deck of the spec's scenario: format `HistoricBrawl`, two
main-board entries (A, qty 4; B, qty 1) and one side-board entry (A, qty 1). -/
def deckScenario : DeckData :=
  ⟨some "Deck", some "url", some "HistoricBrawl", some "2024",
   some ⟨some ⟨some [⟨some cardA, some 4⟩, ⟨some cardB, some 1⟩]⟩,
         some ⟨some [⟨some cardA, some 1⟩]⟩⟩⟩

/-- A deck whose single main-board entry has no `quantity` key. -/
def deckNoQty : DeckData :=
  ⟨some "Deck", some "url", some "HistoricBrawl", some "2024",
   some ⟨some ⟨some [⟨some cardA, none⟩]⟩, none⟩⟩

/-- A deck whose single entry has the whitespace-padded rarity string. -/
def deckPadRarity : DeckData :=
  ⟨some "Deck", some "url", some "HistoricBrawl", some "2024",
   some ⟨some ⟨some [⟨some cardPad, some 2⟩]⟩, none⟩⟩

/-- A deck whose first entry lacks the nested `card` object and whose second
entry is well-formed. -/
def deckBadEntry : DeckData :=
  ⟨some "Deck", some "url", some "HistoricBrawl", some "2024",
   some ⟨some ⟨some [⟨none, some 2⟩, ⟨some cardA, some 2⟩]⟩, none⟩⟩

/-- A deck whose single entry lacks `uniqueCardId`. -/
def deckNoIdEntry : DeckData :=
  ⟨some "Deck", some "url", some "HistoricBrawl", some "2024",
   some ⟨some ⟨some [⟨some cardNoId, some 1⟩]⟩, none⟩⟩

/-- A deck payload with no `format` key at all. -/
def deckNoFormat : DeckData :=
  ⟨some "Deck", some "url", none, none,
   some ⟨some ⟨some [⟨some cardA, some 2⟩]⟩, none⟩⟩

/-- A fetcher state already holding card A in the brawl collection with
`max_quantity` 2. -/
def statePre : FetcherState :=
  ⟨⟨[]⟩, ⟨[("A", ⟨"A", "scA", "Card A", 1, "Creature", ["G"], .COMMON, 2⟩)]⟩⟩

/-- The processing result of the end-to-end scenario deck. -/
def resScenario : DeckWildcardTally × FetcherState :=
  okPair (process_data_to_DeckWildcardTally deckScenario emptyState)

/-- The processing result of the missing-quantity deck. -/
def resNoQty : DeckWildcardTally × FetcherState :=
  okPair (process_data_to_DeckWildcardTally deckNoQty emptyState)

/-- The processing result of the padded-rarity deck. -/
def resPadRarity : DeckWildcardTally × FetcherState :=
  okPair (process_data_to_DeckWildcardTally deckPadRarity emptyState)

/-- The processing result of the missing-format deck. -/
def resNoFormat : DeckWildcardTally × FetcherState :=
  okPair (process_data_to_DeckWildcardTally deckNoFormat emptyState)

/-- A zeroed deck tally used as a starting point in concrete scenarios. -/
def tallyZero : DeckWildcardTally :=
  ⟨"Deck", "url", .BRAWL, none, 0, 0, 0, 0, 0⟩

theorem dget_dset {α : Type} (l : List (String × α)) (k x : String) (v : α) :
    dget (dset l k v) x = if k = x then some v else dget l x := by
  induction l with
  | nil => simp [dset, dget]
  | cons p rest ih =>
    obtain ⟨k', v'⟩ := p
    by_cases h1 : k' = k
    · subst h1
      by_cases h2 : k' = x <;> simp [dset, dget, h2]
    · by_cases h2 : k' = x
      · subst h2
        have h3 : ¬k = k' := fun h => h1 h.symm
        simp [dset, dget, h1, h3]
      · simp [dset, dget, h1, h2, ih]

theorem dget_mem {α : Type} (l : List (String × α)) (x : String) (v : α)
    (h : dget l x = some v) : (x, v) ∈ l := by
  induction l with
  | nil => simp [dget] at h
  | cons p rest ih =>
    obtain ⟨k', v'⟩ := p
    by_cases h1 : k' = x
    · subst h1
      simp [dget] at h
      simp [h]
    · simp [dget, h1] at h
      simp [ih h]

theorem mem_dset {α : Type} (l : List (String × α)) (k x : String) (v w : α)
    (h : (x, w) ∈ dset l k v) : (x, w) ∈ l ∨ (x = k ∧ w = v) := by
  induction l with
  | nil =>
    simp [dset] at h
    exact Or.inr h
  | cons p rest ih =>
    obtain ⟨k', v'⟩ := p
    by_cases h1 : k' = k
    · subst h1
      simp [dset] at h
      rcases h with h | h
      · exact Or.inr ⟨h.1.symm ▸ rfl, h.2⟩
      · exact Or.inl (List.mem_cons_of_mem _ h)
    · simp [dset, h1] at h
      rcases h with h | h
      · exact Or.inl (by simp [h])
      · rcases ih h with h2 | h2
        · exact Or.inl (List.mem_cons_of_mem _ h2)
        · exact Or.inr h2

theorem dget_append_of_some {α : Type} (l m : List (String × α)) (x : String) (v : α)
    (h : dget l x = some v) : dget (l ++ m) x = some v := by
  induction l with
  | nil => simp [dget] at h
  | cons p rest ih =>
    obtain ⟨k', v'⟩ := p
    by_cases h1 : k' = x <;> simp [dget, h1] at h ⊢
    · exact h
    · exact ih h

theorem dget_append_of_none {α : Type} (l m : List (String × α)) (x : String)
    (h : dget l x = none) : dget (l ++ m) x = dget m x := by
  induction l with
  | nil => simp [dget]
  | cons p rest ih =>
    obtain ⟨k', v'⟩ := p
    by_cases h1 : k' = x <;> simp [dget, h1] at h ⊢
    exact ih h

theorem dget_updateMaxQty (l : List (String × Card)) (k x : String) (q : Int) :
    dget (updateMaxQty l k q) x =
      if k = x then
        (dget l x).map (fun c =>
          if c.max_quantity < q then { c with max_quantity := q } else c)
      else dget l x := by
  induction l with
  | nil => simp [updateMaxQty, dget]
  | cons p rest ih =>
    obtain ⟨k', v'⟩ := p
    by_cases h1 : k' = k
    · subst h1
      by_cases h2 : k' = x
      · subst h2
        simp [updateMaxQty, dget]
      · have h3 : ¬k' = x := h2
        simp [updateMaxQty, dget, h3]
    · by_cases h2 : k' = x
      · subst h2
        have h3 : ¬k = k' := fun h => h1 h.symm
        simp [updateMaxQty, dget, h1, h3]
      · simp [updateMaxQty, dget, h1, h2, ih]

theorem add_eq_match (e : CardEntry) (f : DeckFormat) (s : FetcherState) :
    add_card_to_collection e f s =
      match e.card with
      | none => .error ()
      | some co =>
        match co.uniqueCardId, co.scryfall_id, co.name, co.cmc, co.type_line with
        | some uid, some _, some _, some _, some _ =>
          .ok (applyFormatUpdate f uid (e.quantity.getD 0) (mkNewCard co e) s)
        | _, _, _, _, _ => .error () := by
  obtain ⟨oc, oq⟩ := e
  cases oc with
  | none => rfl
  | some co =>
    obtain ⟨u, sc, nm, cm, tl, cl, ra⟩ := co
    cases u <;> cases sc <;> cases nm <;> cases cm <;> cases tl <;> rfl

theorem add_error_of_missing (e : CardEntry) (f : DeckFormat) (s : FetcherState)
    (h : entryMissingField e = true) : add_card_to_collection e f s = .error () := by
  rw [add_eq_match]
  cases hc : e.card with
  | none => rfl
  | some co =>
    simp only [entryMissingField, hc] at h
    obtain ⟨u, sc, nm, cm, tl, cl, ra⟩ := co
    cases u <;> cases sc <;> cases nm <;> cases cm <;> cases tl <;>
      simp_all [Option.isNone]

theorem add_ok_elim (e : CardEntry) (f : DeckFormat) (s s' : FetcherState)
    (h : add_card_to_collection e f s = .ok s') :
    ∃ co uid, e.card = some co ∧ co.uniqueCardId = some uid ∧
      s' = applyFormatUpdate f uid (entryQty e) (mkNewCard co e) s := by
  rw [add_eq_match] at h
  cases hc : e.card with
  | none => rw [hc] at h; simp at h
  | some co =>
    rw [hc] at h
    obtain ⟨u, sc, nm, cm, tl, cl, ra⟩ := co
    cases u with
    | none => simp at h
    | some uid =>
      cases sc with
      | none => simp at h
      | some sc0 =>
        cases nm with
        | none => simp at h
        | some nm0 =>
          cases cm with
          | none => simp at h
          | some cm0 =>
            cases tl with
            | none => simp at h
            | some tl0 =>
              simp only [Except.ok.injEq] at h
              exact ⟨_, uid, rfl, rfl, h.symm⟩

theorem afu_untracked (f : DeckFormat) (hf1 : f ≠ .BRAWL) (hf2 : f ≠ .STANDARD)
    (uid : String) (q : Int) (nc : Card) (s : FetcherState) :
    applyFormatUpdate f uid q nc s = s := by
  simp [applyFormatUpdate, hf1, hf2]

theorem afu_standard_frame (uid : String) (q : Int) (nc : Card) (s : FetcherState) :
    (applyFormatUpdate .BRAWL uid q nc s).standard_wildcard_tally =
      s.standard_wildcard_tally := by
  simp only [applyFormatUpdate]
  split_ifs <;> rfl

theorem afu_brawl_frame (uid : String) (q : Int) (nc : Card) (s : FetcherState) :
    (applyFormatUpdate .STANDARD uid q nc s).historic_brawl_wildcard_tally =
      s.historic_brawl_wildcard_tally := by
  simp only [applyFormatUpdate]
  split_ifs <;> first | rfl | contradiction

theorem afu_brawl_cards (uid : String) (q : Int) (nc : Card) (s : FetcherState) :
    (applyFormatUpdate .BRAWL uid q nc s).historic_brawl_wildcard_tally.cards =
      if (dget s.historic_brawl_wildcard_tally.cards uid).isSome then
        updateMaxQty s.historic_brawl_wildcard_tally.cards uid q
      else s.historic_brawl_wildcard_tally.cards ++ [(uid, nc)] := by
  simp only [applyFormatUpdate]
  split_ifs <;> simp_all

theorem afu_standard_cards (uid : String) (q : Int) (nc : Card) (s : FetcherState) :
    (applyFormatUpdate .STANDARD uid q nc s).standard_wildcard_tally.cards =
      if (dget s.standard_wildcard_tally.cards uid).isSome then
        updateMaxQty s.standard_wildcard_tally.cards uid q
      else s.standard_wildcard_tally.cards ++ [(uid, nc)] := by
  simp only [applyFormatUpdate]
  split_ifs <;> simp_all

theorem afu_target_dget (f : DeckFormat) (hf : f = .BRAWL ∨ f = .STANDARD)
    (uid : String) (q : Int) (nc : Card) (s : FetcherState) (x : String) :
    dget (targetCards f (applyFormatUpdate f uid q nc s)) x =
      if uid = x then
        some (match dget (targetCards f s) uid with
              | some c => if c.max_quantity < q then { c with max_quantity := q } else c
              | none => nc)
      else dget (targetCards f s) x := by
  have key : ∀ cards : List (String × Card),
      dget (if (dget cards uid).isSome then updateMaxQty cards uid q
            else cards ++ [(uid, nc)]) x =
        if uid = x then
          some (match dget cards uid with
                | some c => if c.max_quantity < q then { c with max_quantity := q } else c
                | none => nc)
        else dget cards x := by
    intro cards
    by_cases hb : (dget cards uid).isSome
    · obtain ⟨c, hc⟩ := Option.isSome_iff_exists.mp hb
      rw [if_pos hb, dget_updateMaxQty, hc]
      by_cases hx : uid = x
      · subst hx; rw [hc]; simp
      · simp [hx]
    · have hn : dget cards uid = none := Option.not_isSome_iff_eq_none.mp hb
      rw [if_neg hb, hn]
      by_cases hx : uid = x
      · subst hx
        rw [dget_append_of_none _ _ _ hn]
        simp [dget]
      · simp only [if_neg hx]
        cases hcx : dget cards x with
        | some v => rw [dget_append_of_some _ _ _ _ hcx]
        | none =>
          rw [dget_append_of_none _ _ _ hcx]
          simp [dget, hx]
  rcases hf with hf | hf <;> subst hf
  · rw [show targetCards .BRAWL (applyFormatUpdate .BRAWL uid q nc s) =
        (applyFormatUpdate .BRAWL uid q nc s).historic_brawl_wildcard_tally.cards from rfl,
      afu_brawl_cards]
    exact key _
  · rw [show targetCards .STANDARD (applyFormatUpdate .STANDARD uid q nc s) =
        (applyFormatUpdate .STANDARD uid q nc s).standard_wildcard_tally.cards from rfl,
      afu_standard_cards]
    exact key _

theorem stepMax_some (m q : Int) : stepMax (some m) q = max m q := by
  simp only [stepMax, Int.max_def]
  split_ifs <;> omega

theorem foldl_stepMax_some (qs : List Int) : ∀ q : Int,
    List.foldl (fun o q' => some (stepMax o q')) (some q) qs = some (qs.foldl max q) := by
  induction qs with
  | nil => intro q; rfl
  | cons q' t ih =>
    intro q
    simp only [List.foldl_cons, stepMax_some, ih]

theorem entry_step_maxq (f : DeckFormat) (hf : f = .BRAWL ∨ f = .STANDARD)
    (e : CardEntry) (s s1 : FetcherState) (co : CardObj) (uid : String)
    (_hco : e.card = some co) (_huid : co.uniqueCardId = some uid)
    (hs1 : s1 = applyFormatUpdate f uid (entryQty e) (mkNewCard co e) s) (y : String) :
    (dget (targetCards f s1) y).map Card.max_quantity =
      if uid = y then
        some (stepMax ((dget (targetCards f s) y).map Card.max_quantity) (entryQty e))
      else (dget (targetCards f s) y).map Card.max_quantity := by
  rw [hs1, afu_target_dget f hf]
  by_cases hy : uid = y
  · subst hy
    rw [if_pos rfl, if_pos rfl]
    cases hd : dget (targetCards f s) uid with
    | none => rfl
    | some c =>
      simp only [stepMax, Option.map_some']
      split_ifs <;> rfl
  · rw [if_neg hy, if_neg hy]

theorem foldEntries_maxq (f : DeckFormat) (hf : f = .BRAWL ∨ f = .STANDARD) :
    ∀ (l : List CardEntry) (s s' : FetcherState), foldEntries f l s = .ok s' →
      ∀ x, (dget (targetCards f s') x).map Card.max_quantity =
        (qsOf l x).foldl (fun o q => some (stepMax o q))
          ((dget (targetCards f s) x).map Card.max_quantity) := by
  intro l
  induction l with
  | nil =>
    intro s s' h x
    simp only [foldEntries, Except.ok.injEq] at h
    subst h
    simp [qsOf]
  | cons e rest ih =>
    intro s s' h x
    cases hadd : add_card_to_collection e f s with
    | error err =>
      rw [show foldEntries f (e :: rest) s =
            match add_card_to_collection e f s with
            | .ok s1 => foldEntries f rest s1
            | .error err => .error err from rfl, hadd] at h
      exact absurd h (by simp)
    | ok s1 =>
      rw [show foldEntries f (e :: rest) s =
            match add_card_to_collection e f s with
            | .ok s1 => foldEntries f rest s1
            | .error err => .error err from rfl, hadd] at h
      obtain ⟨co, uid, hco, huid, hs1⟩ := add_ok_elim e f s s1 hadd
      have hid : entryId e = some uid := by simp [entryId, hco, huid]
      have hq : qsOf (e :: rest) x =
          if uid = x then entryQty e :: qsOf rest x else qsOf rest x := by
        simp only [qsOf, List.filterMap_cons, hid]
        by_cases hx : uid = x
        · subst hx; simp [qsOf]
        · have : ¬ (some uid = some x) := by simp [hx]
          simp [this, hx, qsOf]
      have hstep := entry_step_maxq f hf e s s1 co uid hco huid hs1 x
      by_cases hx : uid = x
      · rw [hq, if_pos hx, List.foldl_cons]
        rw [ih s1 s' h x]
        rw [hstep, if_pos hx]
      · rw [hq, if_neg hx]
        rw [ih s1 s' h x]
        rw [hstep, if_neg hx]

theorem collMono_refl (c : List (String × Card)) : collMono c c :=
  fun _ v h => ⟨v, h, le_refl _⟩

theorem collMono_trans (a b c : List (String × Card))
    (h1 : collMono a b) (h2 : collMono b c) : collMono a c := by
  intro x v hv
  obtain ⟨v1, hv1, hle1⟩ := h1 x v hv
  obtain ⟨v2, hv2, hle2⟩ := h2 x v1 hv1
  exact ⟨v2, hv2, le_trans hle1 hle2⟩

theorem stateMono_refl (s : FetcherState) : stateMono s s :=
  ⟨collMono_refl _, collMono_refl _⟩

theorem stateMono_trans (a b c : FetcherState)
    (h1 : stateMono a b) (h2 : stateMono b c) : stateMono a c :=
  ⟨collMono_trans _ _ _ h1.1 h2.1, collMono_trans _ _ _ h1.2 h2.2⟩

theorem collMono_updateMaxQty (l : List (String × Card)) (k : String) (q : Int) :
    collMono l (updateMaxQty l k q) := by
  intro x v hv
  rw [dget_updateMaxQty]
  by_cases hk : k = x
  · subst hk
    rw [if_pos rfl, hv]
    simp only [Option.map_some']
    refine ⟨_, rfl, ?_⟩
    split_ifs with h
    · exact le_of_lt h
    · exact le_refl _
  · rw [if_neg hk]
    exact ⟨v, hv, le_refl _⟩

theorem collMono_append (l m : List (String × Card)) : collMono l (l ++ m) :=
  fun _ v hv => ⟨v, dget_append_of_some _ _ _ _ hv, le_refl _⟩

theorem afu_mono (f : DeckFormat) (uid : String) (q : Int) (nc : Card) (s : FetcherState) :
    stateMono s (applyFormatUpdate f uid q nc s) := by
  simp only [applyFormatUpdate]
  split_ifs <;>
    first
      | exact stateMono_refl _
      | exact ⟨collMono_refl _, collMono_updateMaxQty _ _ _⟩
      | exact ⟨collMono_refl _, collMono_append _ _⟩
      | exact ⟨collMono_updateMaxQty _ _ _, collMono_refl _⟩
      | exact ⟨collMono_append _ _, collMono_refl _⟩

theorem add_mono (e : CardEntry) (f : DeckFormat) (s s' : FetcherState)
    (h : add_card_to_collection e f s = .ok s') : stateMono s s' := by
  obtain ⟨co, uid, _, _, hs'⟩ := add_ok_elim e f s s' h
  rw [hs']
  exact afu_mono _ _ _ _ _

theorem processEntries_cons (f : DeckFormat) (t : DeckWildcardTally) (s : FetcherState)
    (e : CardEntry) (rest : List CardEntry) :
    processEntries f t s (e :: rest) =
      match add_card_to_collection e f s with
      | .error err => .error err
      | .ok s' =>
        processEntries f
          (bucketAdd t (pyLower ((e.card.getD CardObj.emptyDict).rarity.getD ""))
            (e.quantity.getD 1)) s' rest := rfl

theorem processEntries_mono (f : DeckFormat) :
    ∀ (l : List CardEntry) (t : DeckWildcardTally) (s : FetcherState)
      (t' : DeckWildcardTally) (s' : FetcherState),
      processEntries f t s l = .ok (t', s') → stateMono s s' := by
  intro l
  induction l with
  | nil =>
    intro t s t' s' h
    simp only [processEntries, Except.ok.injEq, Prod.mk.injEq] at h
    rw [← h.2]
    exact stateMono_refl _
  | cons e rest ih =>
    intro t s t' s' h
    rw [processEntries_cons] at h
    cases hadd : add_card_to_collection e f s with
    | error err => rw [hadd] at h; exact absurd h (by simp)
    | ok s1 =>
      rw [hadd] at h
      exact stateMono_trans _ _ _ (add_mono e f s s1 hadd) (ih _ _ _ _ h)

theorem bucketAdd_shape (t : DeckWildcardTally) (r : String) (q : Int) :
    (bucketAdd t r q).deck_name = t.deck_name ∧ (bucketAdd t r q).url = t.url ∧
    (bucketAdd t r q).format = t.format ∧
    (bucketAdd t r q).last_updated_at = t.last_updated_at := by
  simp only [bucketAdd]
  split_ifs <;> exact ⟨rfl, rfl, rfl, rfl⟩

theorem processEntries_format (f : DeckFormat) :
    ∀ (l : List CardEntry) (t : DeckWildcardTally) (s : FetcherState)
      (t' : DeckWildcardTally) (s' : FetcherState),
      processEntries f t s l = .ok (t', s') → t'.format = t.format := by
  intro l
  induction l with
  | nil =>
    intro t s t' s' h
    simp only [processEntries, Except.ok.injEq, Prod.mk.injEq] at h
    rw [← h.1]
  | cons e rest ih =>
    intro t s t' s' h
    rw [processEntries_cons] at h
    cases hadd : add_card_to_collection e f s with
    | error err => rw [hadd] at h; exact absurd h (by simp)
    | ok s1 =>
      rw [hadd] at h
      rw [ih _ _ _ _ h]
      exact (bucketAdd_shape _ _ _).2.2.1

theorem collMono_isSome (c c' : List (String × Card)) (h : collMono c c') (x : String)
    (hx : (dget c x).isSome) : (dget c' x).isSome := by
  obtain ⟨v, hv⟩ := Option.isSome_iff_exists.mp hx
  obtain ⟨v', hv', _⟩ := h x v hv
  rw [hv']
  rfl

theorem stateMono_target (f : DeckFormat) (s s' : FetcherState) (h : stateMono s s') :
    collMono (targetCards f s) (targetCards f s') := by
  cases f <;> first | exact h.1 | exact h.2

theorem processEntries_std_frame :
    ∀ (l : List CardEntry) (t : DeckWildcardTally) (s : FetcherState)
      (t' : DeckWildcardTally) (s' : FetcherState),
      processEntries .STANDARD t s l = .ok (t', s') →
      s'.historic_brawl_wildcard_tally = s.historic_brawl_wildcard_tally := by
  intro l
  induction l with
  | nil =>
    intro t s t' s' h
    simp only [processEntries, Except.ok.injEq, Prod.mk.injEq] at h
    rw [← h.2]
  | cons e rest ih =>
    intro t s t' s' h
    rw [processEntries_cons] at h
    cases hadd : add_card_to_collection e .STANDARD s with
    | error err => rw [hadd] at h; exact absurd h (by simp)
    | ok s1 =>
      rw [hadd] at h
      obtain ⟨co, uid, _, _, hs1⟩ := add_ok_elim e .STANDARD s s1 hadd
      rw [ih _ _ _ _ h, hs1, afu_brawl_frame]

theorem processEntries_inserts (f : DeckFormat) (hf : f = .BRAWL ∨ f = .STANDARD) :
    ∀ (l : List CardEntry) (t : DeckWildcardTally) (s : FetcherState)
      (t' : DeckWildcardTally) (s' : FetcherState),
      processEntries f t s l = .ok (t', s') →
      ∀ e ∈ l, ∀ co uid, e.card = some co → co.uniqueCardId = some uid →
        (dget (targetCards f s') uid).isSome := by
  intro l
  induction l with
  | nil =>
    intro t s t' s' h e he
    simp at he
  | cons e0 rest ih =>
    intro t s t' s' h e he co uid hco huid
    rw [processEntries_cons] at h
    cases hadd : add_card_to_collection e0 f s with
    | error err => rw [hadd] at h; exact absurd h (by simp)
    | ok s1 =>
      rw [hadd] at h
      rcases List.mem_cons.mp he with he0 | herest
      · subst he0
        obtain ⟨co1, uid1, hco1, huid1, hs1⟩ := add_ok_elim e f s s1 hadd
        rw [hco1] at hco
        injection hco with hco
        subst hco
        rw [huid1] at huid
        injection huid with huid
        subst huid
        have hpres : (dget (targetCards f s1) uid1).isSome := by
          rw [hs1, afu_target_dget f hf, if_pos rfl]
          rfl
        exact collMono_isSome _ _
          (stateMono_target f s1 s' (processEntries_mono f rest _ _ _ _ h)) uid1 hpres
      · exact ih _ _ _ _ h e herest co uid hco huid

theorem bump_fields (c : Card) (q : Int) :
    (if c.max_quantity < q then { c with max_quantity := q } else c).unique_id = c.unique_id ∧
    (if c.max_quantity < q then { c with max_quantity := q } else c).scryfall_id = c.scryfall_id ∧
    (if c.max_quantity < q then { c with max_quantity := q } else c).name = c.name ∧
    (if c.max_quantity < q then { c with max_quantity := q } else c).cmc = c.cmc ∧
    (if c.max_quantity < q then { c with max_quantity := q } else c).type_line = c.type_line ∧
    (if c.max_quantity < q then { c with max_quantity := q } else c).colors = c.colors ∧
    (if c.max_quantity < q then { c with max_quantity := q } else c).rarity = c.rarity := by
  split_ifs <;> exact ⟨rfl, rfl, rfl, rfl, rfl, rfl, rfl⟩

/-- C5: if the deck format is not one of the two tracked formats, a
successful `add_card_to_collection` call leaves the whole fetcher state
untouched (and a raising call never reaches the collection mutations,
modelled by `.error` carrying no state).  For a tracked format, the other
format's collection is untouched, every key other than the entry's
`unique_id` keeps its binding in both collections, and when the
`unique_id` already exists in the target collection only its
`max_quantity` may change: `unique_id`, `scryfall_id`, `name`, `cmc`,
`type_line`, `colors` and `rarity` keep their first-seen values. -/
theorem c5_merger_frame (e : CardEntry) (f : DeckFormat) (s s' : FetcherState)
    (h : add_card_to_collection e f s = .ok s') :
    (f ≠ .BRAWL → f ≠ .STANDARD → s' = s)
  ∧ (f = .BRAWL → s'.standard_wildcard_tally = s.standard_wildcard_tally)
  ∧ (f = .STANDARD → s'.historic_brawl_wildcard_tally = s.historic_brawl_wildcard_tally)
  ∧ (∀ co uid, e.card = some co → co.uniqueCardId = some uid →
      (∀ x, x ≠ uid →
        dget s'.standard_wildcard_tally.cards x = dget s.standard_wildcard_tally.cards x ∧
        dget s'.historic_brawl_wildcard_tally.cards x =
          dget s.historic_brawl_wildcard_tally.cards x)
      ∧ (∀ c, f = .BRAWL → dget s.historic_brawl_wildcard_tally.cards uid = some c →
          ∃ c', dget s'.historic_brawl_wildcard_tally.cards uid = some c' ∧
            c'.unique_id = c.unique_id ∧ c'.scryfall_id = c.scryfall_id ∧
            c'.name = c.name ∧ c'.cmc = c.cmc ∧ c'.type_line = c.type_line ∧
            c'.colors = c.colors ∧ c'.rarity = c.rarity)
      ∧ (∀ c, f = .STANDARD → dget s.standard_wildcard_tally.cards uid = some c →
          ∃ c', dget s'.standard_wildcard_tally.cards uid = some c' ∧
            c'.unique_id = c.unique_id ∧ c'.scryfall_id = c.scryfall_id ∧
            c'.name = c.name ∧ c'.cmc = c.cmc ∧ c'.type_line = c.type_line ∧
            c'.colors = c.colors ∧ c'.rarity = c.rarity)) := by
  obtain ⟨co0, uid0, hco0, huid0, hs'⟩ := add_ok_elim e f s s' h
  refine ⟨?_, ?_, ?_, ?_⟩
  · intro h1 h2
    rw [hs', afu_untracked f h1 h2]
  · intro hb
    subst hb
    rw [hs']
    exact afu_standard_frame _ _ _ _
  · intro hb
    subst hb
    rw [hs']
    exact afu_brawl_frame _ _ _ _
  · intro co uid hco huid
    rw [hco0] at hco
    injection hco with hco
    subst hco
    rw [huid0] at huid
    injection huid with huid
    subst huid
    refine ⟨?_, ?_, ?_⟩
    · intro x hx
      by_cases hb : f = .BRAWL
      · subst hb
        constructor
        · rw [hs', afu_standard_frame]
        · have ht := afu_target_dget .BRAWL (Or.inl rfl) uid0 (entryQty e) (mkNewCard co0 e) s x
          simp only [targetCards] at ht
          rw [hs', ht, if_neg (fun hh => hx hh.symm)]
      · by_cases hstd : f = .STANDARD
        · subst hstd
          constructor
          · have ht := afu_target_dget .STANDARD (Or.inr rfl) uid0 (entryQty e) (mkNewCard co0 e) s x
            simp only [targetCards] at ht
            rw [hs', ht, if_neg (fun hh => hx hh.symm)]
          · rw [hs', afu_brawl_frame]
        · rw [hs', afu_untracked f hb hstd]
          exact ⟨rfl, rfl⟩
    · intro c hb hc
      subst hb
      have ht := afu_target_dget .BRAWL (Or.inl rfl) uid0 (entryQty e) (mkNewCard co0 e) s uid0
      simp only [targetCards] at ht
      rw [hc] at ht
      simp only [if_true, eq_self_iff_true] at ht
      rw [hs', ht]
      exact ⟨_, rfl, bump_fields c (entryQty e)⟩
    · intro c hstd hc
      subst hstd
      have ht := afu_target_dget .STANDARD (Or.inr rfl) uid0 (entryQty e) (mkNewCard co0 e) s uid0
      simp only [targetCards] at ht
      rw [hc] at ht
      simp only [if_true, eq_self_iff_true] at ht
      rw [hs', ht]
      exact ⟨_, rfl, bump_fields c (entryQty e)⟩

theorem processEntries_error_of_missing (f : DeckFormat) :
    ∀ (l : List CardEntry) (t : DeckWildcardTally) (s : FetcherState),
      (∃ e ∈ l, entryMissingField e = true) → processEntries f t s l = .error () := by
  intro l
  induction l with
  | nil =>
    intro t s h
    simp at h
  | cons e0 rest ih =>
    intro t s h
    rw [processEntries_cons]
    cases hadd : add_card_to_collection e0 f s with
    | error err => cases err; rfl
    | ok s1 =>
      obtain ⟨e, he, hmiss⟩ := h
      rcases List.mem_cons.mp he with he0 | herest
      · subst he0
        rw [add_error_of_missing e f s hmiss] at hadd
        exact absurd hadd (by simp)
      · exact ih _ _ ⟨e, herest, hmiss⟩

theorem from_string_standard : DeckFormat.from_string "standard" = .ok .STANDARD := by decide

theorem process_data_noformat_eq (d : DeckData) (s : FetcherState) (h : d.format = none) :
    process_data_to_DeckWildcardTally d s =
      processEntries .STANDARD
        ⟨d.name.getD "Unknown Deck", d.publicUrl.getD "", .STANDARD, d.lastUpdatedAtUtc,
         0, 0, 0, 0, 0⟩ s (allCards d) := by
  unfold process_data_to_DeckWildcardTally
  rw [h]
  rfl

theorem extract_ok {α : Type} (empty : α) (loads : String → Except Unit α)
    (page : String) : ∃ a, extract_data empty loads page = .ok a := by
  cases hr : reSearchPre page.toList with
  | none =>
    refine ⟨empty, ?_⟩
    have hr2 : reSearchPre page.data = none := hr
    simp [extract_data, hr2]
  | some body =>
    have hr2 : reSearchPre page.data = some body := hr
    cases hl : loads (String.mk body) with
    | ok a =>
      refine ⟨a, ?_⟩
      simp [extract_data, hr2, hl]
    | error e =>
      refine ⟨empty, ?_⟩
      simp [extract_data, hr2, hl]

theorem fetchedValue_some {α : Type} (empty : α) (loads : String → Except Unit α)
    (fetchPage : String → Except Unit String) (u : String) (p : String)
    (hp : fetchPage u = .ok p) :
    ∃ a, fetchedValue empty loads fetchPage u = some a ∧
      extract_data empty loads p = .ok a := by
  obtain ⟨a, ha⟩ := extract_ok empty loads p
  refine ⟨a, ?_, ha⟩
  simp [fetchedValue, hp, ha]

theorem fetchLoop_dget {α : Type} (empty : α) (loads : String → Except Unit α)
    (fetchPage : String → Except Unit String) :
    ∀ (urls : List String) (acc m : List (String × α)),
      fetchLoop empty loads fetchPage urls acc = .ok m →
      ∀ x, dget m x =
        if x ∈ urls then fetchedValue empty loads fetchPage x else dget acc x := by
  intro urls
  induction urls with
  | nil =>
    intro acc m h x
    simp only [fetchLoop, Except.ok.injEq] at h
    subst h
    simp
  | cons u rest ih =>
    intro acc m h x
    rw [show fetchLoop empty loads fetchPage (u :: rest) acc =
          match fetchPage u with
          | .error e => .error e
          | .ok page =>
            match extract_data empty loads page with
            | .error e => .error e
            | .ok d => fetchLoop empty loads fetchPage rest (dset acc u d)
        from rfl] at h
    cases hp : fetchPage u with
    | error e => rw [hp] at h; exact absurd h (by simp)
    | ok page =>
      rw [hp] at h
      have h2 : (match extract_data empty loads page with
                 | Except.error e => Except.error e
                 | Except.ok d => fetchLoop empty loads fetchPage rest (dset acc u d)) =
          Except.ok m := h
      cases he : extract_data empty loads page with
      | error e => rw [he] at h2; exact absurd h2 (by simp)
      | ok d =>
        rw [he] at h2
        have hrec := ih _ _ h2 x
        by_cases hxr : x ∈ rest
        · rw [hrec, if_pos hxr, if_pos (List.mem_cons_of_mem _ hxr)]
        · rw [hrec, if_neg hxr, dget_dset]
          by_cases hxu : u = x
          · subst hxu
            rw [if_pos rfl, if_pos (List.mem_cons_self _ _)]
            have : fetchedValue empty loads fetchPage u = some d := by
              simp [fetchedValue, hp, he]
            rw [this]
          · have hnotmem : ¬x ∈ u :: rest := by
              simp only [List.mem_cons]
              rintro (h1 | h2)
              · exact hxu h1.symm
              · exact hxr h2
            rw [if_neg hxu, if_neg hnotmem]

theorem fetchLoop_ok_of_fetch {α : Type} (empty : α) (loads : String → Except Unit α)
    (fetchPage : String → Except Unit String) :
    ∀ (urls : List String) (acc : List (String × α)),
      (∀ u ∈ urls, ∃ p, fetchPage u = .ok p) →
      ∃ m, fetchLoop empty loads fetchPage urls acc = .ok m := by
  intro urls
  induction urls with
  | nil => intro acc _; exact ⟨acc, rfl⟩
  | cons u rest ih =>
    intro acc hs
    obtain ⟨p, hp⟩ := hs u (List.mem_cons_self _ _)
    obtain ⟨a, ha⟩ := extract_ok empty loads p
    obtain ⟨m, hm⟩ := ih (dset acc u a) (fun v hv => hs v (List.mem_cons_of_mem _ hv))
    refine ⟨m, ?_⟩
    rw [show fetchLoop empty loads fetchPage (u :: rest) acc =
          match fetchPage u with
          | .error e => .error e
          | .ok page =>
            match extract_data empty loads page with
            | .error e => .error e
            | .ok d => fetchLoop empty loads fetchPage rest (dset acc u d)
        from rfl, hp]
    show (match extract_data empty loads p with
          | Except.error e => Except.error e
          | Except.ok d => fetchLoop empty loads fetchPage rest (dset acc u d)) =
        Except.ok m
    rw [ha]
    exact hm

theorem fetchLoop_coherent {α : Type} (empty : α) (loads : String → Except Unit α)
    (fetchPage : String → Except Unit String) :
    ∀ (urls : List String) (acc m : List (String × α)),
      fetchLoop empty loads fetchPage urls acc = .ok m →
      (∀ k a, (k, a) ∈ acc → fetchedValue empty loads fetchPage k = some a) →
      ∀ k a, (k, a) ∈ m → fetchedValue empty loads fetchPage k = some a := by
  intro urls
  induction urls with
  | nil =>
    intro acc m h hacc
    simp only [fetchLoop, Except.ok.injEq] at h
    subst h
    exact hacc
  | cons u rest ih =>
    intro acc m h hacc
    rw [show fetchLoop empty loads fetchPage (u :: rest) acc =
          match fetchPage u with
          | .error e => .error e
          | .ok page =>
            match extract_data empty loads page with
            | .error e => .error e
            | .ok d => fetchLoop empty loads fetchPage rest (dset acc u d)
        from rfl] at h
    cases hp : fetchPage u with
    | error e => rw [hp] at h; exact absurd h (by simp)
    | ok page =>
      rw [hp] at h
      have h2 : (match extract_data empty loads page with
                 | Except.error e => Except.error e
                 | Except.ok d => fetchLoop empty loads fetchPage rest (dset acc u d)) =
          Except.ok m := h
      cases he : extract_data empty loads page with
      | error e => rw [he] at h2; exact absurd h2 (by simp)
      | ok d =>
        rw [he] at h2
        refine ih _ _ h2 ?_
        intro k a hka
        rcases mem_dset _ _ _ _ _ hka with hin | ⟨hk, ha⟩
        · exact hacc k a hin
        · subst hk
          subst ha
          simp [fetchedValue, hp, he]

theorem dget_dunion_isSome {α : Type} :
    ∀ (m acc : List (String × α)) (x : String),
      (dget (dunion acc m) x).isSome =
        ((dget m x).isSome || (dget acc x).isSome) := by
  intro m
  induction m with
  | nil => intro acc x; simp [dunion, dget]
  | cons p m' ih =>
    intro acc x
    obtain ⟨k, b⟩ := p
    rw [show dunion acc ((k, b) :: m') = dunion (dset acc k b) m' from rfl, ih, dget_dset]
    by_cases hk : k = x <;> simp [dget, hk]

theorem dget_dunion_of_none {α : Type} :
    ∀ (m acc : List (String × α)) (x : String), dget m x = none →
      dget (dunion acc m) x = dget acc x := by
  intro m
  induction m with
  | nil => intro acc x _; rfl
  | cons p m' ih =>
    intro acc x h
    obtain ⟨k, b⟩ := p
    have hk : ¬k = x := by
      intro hk
      rw [dget, if_pos hk] at h
      exact Option.noConfusion h
    rw [dget, if_neg hk] at h
    rw [show dunion acc ((k, b) :: m') = dunion (dset acc k b) m' from rfl, ih _ _ h,
      dget_dset, if_neg hk]

theorem dget_dunion_coherent {α : Type} (val : String → Option α) :
    ∀ (m acc : List (String × α)),
      (∀ k a, (k, a) ∈ m → val k = some a) →
      ∀ x, (dget m x).isSome = true → dget (dunion acc m) x = val x := by
  intro m
  induction m with
  | nil =>
    intro acc _ x hx
    simp [dget] at hx
  | cons p m' ih =>
    intro acc h x hx
    obtain ⟨k, b⟩ := p
    rw [show dunion acc ((k, b) :: m') = dunion (dset acc k b) m' from rfl]
    by_cases hm' : (dget m' x).isSome = true
    · exact ih (dset acc k b) (fun k' a' h' => h k' a' (List.mem_cons_of_mem _ h')) x hm'
    · have hnone : dget m' x = none := by
        cases hdm : dget m' x
        · rfl
        · rw [hdm] at hm'; exact absurd rfl hm'
      have hk : k = x := by
        by_contra hk
        rw [dget, if_neg hk, hnone] at hx
        exact Bool.noConfusion hx
      subst hk
      rw [dget_dunion_of_none _ _ _ hnone, dget_dset, if_pos rfl]
      exact (h k b (List.mem_cons_self _ _)).symm

theorem fetchAllLoop_subset {α : Type} (empty : α) (loads : String → Except Unit α)
    (fetchPage : String → Except Unit String) :
    ∀ (chunks : List (List String)) (acc : List (String × α)) (x : String),
      (dget (fetchAllLoop empty loads fetchPage chunks acc) x).isSome = true →
      (∃ c ∈ chunks, x ∈ c) ∨ (dget acc x).isSome = true := by
  intro chunks
  induction chunks with
  | nil =>
    intro acc x h
    exact Or.inr h
  | cons chunk rest ih =>
    intro acc x h
    rw [show fetchAllLoop empty loads fetchPage (chunk :: rest) acc =
          match fetch_and_extract_data empty loads fetchPage chunk with
          | .ok data_map => fetchAllLoop empty loads fetchPage rest (dunion acc data_map)
          | .error _ => fetchAllLoop empty loads fetchPage rest acc
        from rfl] at h
    cases hfe : fetch_and_extract_data empty loads fetchPage chunk with
    | error e =>
      rw [hfe] at h
      rcases ih _ _ h with ⟨c, hc, hxc⟩ | hacc
      · exact Or.inl ⟨c, List.mem_cons_of_mem _ hc, hxc⟩
      · exact Or.inr hacc
    | ok m =>
      rw [hfe] at h
      rcases ih _ _ h with ⟨c, hc, hxc⟩ | hun
      · exact Or.inl ⟨c, List.mem_cons_of_mem _ hc, hxc⟩
      · rw [dget_dunion_isSome] at hun
        rcases Bool.or_eq_true_iff.mp hun with hm | hacc
        · have hd := fetchLoop_dget empty loads fetchPage chunk [] m hfe x
          by_cases hxc : x ∈ chunk
          · exact Or.inl ⟨chunk, List.mem_cons_self _ _, hxc⟩
          · rw [hd, if_neg hxc] at hm
            simp [dget] at hm
        · exact Or.inr hacc

theorem fetchAllLoop_all_ok {α : Type} (empty : α) (loads : String → Except Unit α)
    (fetchPage : String → Except Unit String) :
    ∀ (chunks : List (List String)),
      (∀ c ∈ chunks, ∀ u ∈ c, ∃ p, fetchPage u = .ok p) →
      ∀ (acc : List (String × α)) (x : String),
        dget (fetchAllLoop empty loads fetchPage chunks acc) x =
          if x ∈ chunks.flatten then fetchedValue empty loads fetchPage x
          else dget acc x := by
  intro chunks
  induction chunks with
  | nil =>
    intro _ acc x
    simp [fetchAllLoop]
  | cons chunk rest ih =>
    intro hsucc acc x
    obtain ⟨m, hm⟩ := fetchLoop_ok_of_fetch empty loads fetchPage chunk []
      (hsucc chunk (List.mem_cons_self _ _))
    rw [show fetchAllLoop empty loads fetchPage (chunk :: rest) acc =
          match fetch_and_extract_data empty loads fetchPage chunk with
          | .ok data_map => fetchAllLoop empty loads fetchPage rest (dunion acc data_map)
          | .error _ => fetchAllLoop empty loads fetchPage rest acc
        from rfl, show fetch_and_extract_data empty loads fetchPage chunk =
          fetchLoop empty loads fetchPage chunk [] from rfl, hm]
    rw [ih (fun c hc => hsucc c (List.mem_cons_of_mem _ hc)) (dunion acc m) x]
    have hd := fetchLoop_dget empty loads fetchPage chunk [] m hm x
    have hjoin : x ∈ (chunk :: rest).flatten ↔ x ∈ chunk ∨ x ∈ rest.flatten := by
      simp
    by_cases hr : x ∈ rest.flatten
    · rw [if_pos hr, if_pos (hjoin.mpr (Or.inr hr))]
    · rw [if_neg hr]
      by_cases hxc : x ∈ chunk
      · rw [if_pos (hjoin.mpr (Or.inl hxc))]
        have hco : ∀ k a, (k, a) ∈ m → fetchedValue empty loads fetchPage k = some a :=
          fetchLoop_coherent empty loads fetchPage chunk [] m hm
            (by intro k a hk; simp at hk)
        have hms : (dget m x).isSome = true := by
          rw [hd, if_pos hxc]
          obtain ⟨p, hp⟩ := hsucc chunk (List.mem_cons_self _ _) x hxc
          obtain ⟨a, ha, _⟩ := fetchedValue_some empty loads fetchPage x p hp
          rw [ha]
          rfl
        exact dget_dunion_coherent (fetchedValue empty loads fetchPage) m acc hco x hms
      · rw [if_neg (fun hx => (hjoin.mp hx).elim hxc hr)]
        have hmn : dget m x = none := by
          rw [hd, if_neg hxc]
          rfl
        exact dget_dunion_of_none _ _ _ hmn

theorem chunked_flatten {α : Type} (n : Nat) (hn : 0 < n) :
    ∀ (len : Nat) (l : List α), l.length ≤ len → (chunked l n).flatten = l := by
  intro len
  induction len with
  | zero =>
    intro l hl
    rw [List.eq_nil_of_length_eq_zero (Nat.le_zero.mp hl)]
    simp [chunked]
  | succ k ih =>
    intro l hl
    cases l with
    | nil => simp [chunked]
    | cons x xs =>
      obtain ⟨m, rfl⟩ : ∃ m, n = m + 1 := ⟨n - 1, by omega⟩
      rw [show chunked (x :: xs) (m + 1) =
            ((x :: xs).take (m + 1)) :: chunked ((x :: xs).drop (m + 1)) (m + 1)
          from by rw [chunked]]
      rw [List.flatten_cons]
      rw [ih ((x :: xs).drop (m + 1)) (by simp at hl ⊢; omega)]
      exact List.take_append_drop _ _

theorem chunked_length_le {α : Type} (n : Nat) :
    ∀ (len : Nat) (l : List α), l.length ≤ len → ∀ c ∈ chunked l n, c.length ≤ n := by
  intro len
  induction len with
  | zero =>
    intro l hl c hc
    rw [List.eq_nil_of_length_eq_zero (Nat.le_zero.mp hl)] at hc
    simp [chunked] at hc
  | succ k ih =>
    intro l hl c hc
    cases l with
    | nil => simp [chunked] at hc
    | cons x xs =>
      cases n with
      | zero => simp [chunked] at hc
      | succ m =>
        rw [show chunked (x :: xs) (m + 1) =
              ((x :: xs).take (m + 1)) :: chunked ((x :: xs).drop (m + 1)) (m + 1)
            from by rw [chunked]] at hc
        rcases List.mem_cons.mp hc with hc1 | hc2
        · subst hc1
          simp [List.length_take]
        · exact ih ((x :: xs).drop (m + 1)) (by simp at hl ⊢; omega) c hc2

theorem extract_marker_missing {α : Type} (empty : α) (loads : String → Except Unit α)
    (p : String) (h : reSearchPre p.toList = none) :
    extract_data empty loads p = .ok empty := by
  have h2 : reSearchPre p.data = none := h
  simp [extract_data, h2]

theorem extract_parse_fail {α : Type} (empty : α) (loads : String → Except Unit α)
    (p : String) (body : List Char) (h : reSearchPre p.toList = some body)
    (hl : loads (String.mk body) = .error ()) :
    extract_data empty loads p = .ok empty := by
  have h2 : reSearchPre p.data = some body := h
  simp [extract_data, h2, hl]

/-- C1: folding any sequence of card entries into a tracked format's
collection leaves, for a `unique_id` not present beforehand, a stored
`max_quantity` equal to the maximum of the quantities of the folded entries
carrying that id (`listMaxOpt`), never their sum; in particular the result
is invariant under reordering of the folded entries. -/
theorem c1_collection_max_fold (f : DeckFormat) (hf : f = .BRAWL ∨ f = .STANDARD)
    (l : List CardEntry) (x : String) (s0 s1 : FetcherState)
    (h0 : dget (targetCards f s0) x = none)
    (hrun : foldEntries f l s0 = .ok s1) :
    (dget (targetCards f s1) x).map Card.max_quantity = listMaxOpt (qsOf l x) := by
  have h := foldEntries_maxq f hf l s0 s1 hrun x
  rw [h, h0]
  cases hq : qsOf l x with
  | nil => rfl
  | cons q qs =>
    rw [List.foldl_cons]
    exact foldl_stepMax_some qs q

/-- Witness for C1: the same entry `(X, 3)` folded twice yields 3 (not 6),
and `(X, 2), (X, 5), (X, 1)` yield 5 in every one of the six fold orders. -/
theorem c1_witness :
    (dget (targetCards .BRAWL
      (okS (foldEntries .BRAWL [mkEntryR "X" 3 "rare", mkEntryR "X" 3 "rare"] emptyState)))
      "X").map Card.max_quantity = some 3
  ∧ (dget (targetCards .BRAWL
      (okS (foldEntries .BRAWL
        [mkEntryR "X" 2 "rare", mkEntryR "X" 5 "rare", mkEntryR "X" 1 "rare"] emptyState)))
      "X").map Card.max_quantity = some 5
  ∧ (dget (targetCards .BRAWL
      (okS (foldEntries .BRAWL
        [mkEntryR "X" 2 "rare", mkEntryR "X" 1 "rare", mkEntryR "X" 5 "rare"] emptyState)))
      "X").map Card.max_quantity = some 5
  ∧ (dget (targetCards .BRAWL
      (okS (foldEntries .BRAWL
        [mkEntryR "X" 5 "rare", mkEntryR "X" 2 "rare", mkEntryR "X" 1 "rare"] emptyState)))
      "X").map Card.max_quantity = some 5
  ∧ (dget (targetCards .BRAWL
      (okS (foldEntries .BRAWL
        [mkEntryR "X" 5 "rare", mkEntryR "X" 1 "rare", mkEntryR "X" 2 "rare"] emptyState)))
      "X").map Card.max_quantity = some 5
  ∧ (dget (targetCards .BRAWL
      (okS (foldEntries .BRAWL
        [mkEntryR "X" 1 "rare", mkEntryR "X" 2 "rare", mkEntryR "X" 5 "rare"] emptyState)))
      "X").map Card.max_quantity = some 5
  ∧ (dget (targetCards .BRAWL
      (okS (foldEntries .BRAWL
        [mkEntryR "X" 1 "rare", mkEntryR "X" 5 "rare", mkEntryR "X" 2 "rare"] emptyState)))
      "X").map Card.max_quantity = some 5 :=
  by
  refine ⟨?_, ?_, ?_, ?_, ?_, ?_, ?_⟩
  · exact (c1_collection_max_fold .BRAWL (Or.inl rfl)
      [mkEntryR "X" 3 "rare", mkEntryR "X" 3 "rare"]
      "X" emptyState _ rfl rfl).trans (by decide)
  · exact (c1_collection_max_fold .BRAWL (Or.inl rfl)
      [mkEntryR "X" 2 "rare", mkEntryR "X" 5 "rare", mkEntryR "X" 1 "rare"]
      "X" emptyState _ rfl rfl).trans (by decide)
  · exact (c1_collection_max_fold .BRAWL (Or.inl rfl)
      [mkEntryR "X" 2 "rare", mkEntryR "X" 1 "rare", mkEntryR "X" 5 "rare"]
      "X" emptyState _ rfl rfl).trans (by decide)
  · exact (c1_collection_max_fold .BRAWL (Or.inl rfl)
      [mkEntryR "X" 5 "rare", mkEntryR "X" 2 "rare", mkEntryR "X" 1 "rare"]
      "X" emptyState _ rfl rfl).trans (by decide)
  · exact (c1_collection_max_fold .BRAWL (Or.inl rfl)
      [mkEntryR "X" 5 "rare", mkEntryR "X" 1 "rare", mkEntryR "X" 2 "rare"]
      "X" emptyState _ rfl rfl).trans (by decide)
  · exact (c1_collection_max_fold .BRAWL (Or.inl rfl)
      [mkEntryR "X" 1 "rare", mkEntryR "X" 2 "rare", mkEntryR "X" 5 "rare"]
      "X" emptyState _ rfl rfl).trans (by decide)
  · exact (c1_collection_max_fold .BRAWL (Or.inl rfl)
      [mkEntryR "X" 1 "rare", mkEntryR "X" 5 "rare", mkEntryR "X" 2 "rare"]
      "X" emptyState _ rfl rfl).trans (by decide)

/-- C8: for every page-text string and every behavior of the JSON parser,
`_extract_data` returns a payload and never propagates an error: it returns
the empty payload when the `<pre>` marker pattern finds no match, and also
when the enclosed text fails to parse (the caught `JSONDecodeError`).  As a
Lean function of its input string it is pure by construction. -/
theorem c8_extract_total {α : Type} (empty : α) (loads : String → Except Unit α)
    (page_source : String) :
    (∃ payload, extract_data empty loads page_source = .ok payload)
  ∧ (reSearchPre page_source.toList = none →
      extract_data empty loads page_source = .ok empty)
  ∧ (∀ body, reSearchPre page_source.toList = some body →
      loads (String.mk body) = .error () →
      extract_data empty loads page_source = .ok empty) :=
  ⟨extract_ok empty loads page_source,
   fun h => extract_marker_missing empty loads page_source h,
   fun body h hl => extract_parse_fail empty loads page_source body h hl⟩

/-- Witness for C8 at concrete pages: a page with a well-formed marker whose
body fails to parse yields the empty payload, and a page with no marker
yields the empty payload. -/
theorem c8_witness :
    extract_data (0 : Int) (fun _ => .error ()) "<html><pre>bad json</pre></html>" = .ok 0
  ∧ extract_data (0 : Int) (fun _ => .error ()) "<html><p>no marker</p></html>" = .ok 0 :=
  ⟨(c8_extract_total (0 : Int) (fun _ => .error ())
      "<html><pre>bad json</pre></html>").2.2 "bad json".toList (by decide) rfl,
   (c8_extract_total (0 : Int) (fun _ => .error ())
      "<html><p>no marker</p></html>").2.1 (by decide)⟩

/-- Counterexample for C2: with a page provider that raises on every URL
("fetch failed"), the batch operation returns a mapping with no entry at all
for the requested URL "u1" — the URL is not mapped to Absent, contradicting
the claim that a fetch-failed URL is still present in the output. -/
theorem c2_counterexample :
    dget (fetchAll (0 : Int) (fun _ => .error ()) (fun _ => .error ()) ["u1"] 1) "u1" = none
  ∧ "u1" ∈ (["u1"] : List String) := by
  constructor
  · have hc : chunked (["u1"] : List String) 1 = [["u1"]] := by
      simp [chunked]
    show dget (fetchAllLoop (0 : Int) (fun _ => .error ()) (fun _ => .error ())
      (chunked ["u1"] 1) []) "u1" = none
    rw [hc]
    rfl
  · decide

/-- C2 (amended): `chunked` partitions the URL list into contiguous batches
of at most `chunkSize` whose concatenation is the input; the output mapping
of the batch fetch has no key outside the input; and when every page fetch
succeeds, every input URL is present, mapped to its page's extraction result
— in particular to the Absent (empty) payload when the page lacks the
`<pre>` marker.  (A URL whose fetch raises is dropped together with the rest
of its batch, per the counterexample.) -/
theorem c2_amended_fetchAll {α : Type} (empty : α) (loads : String → Except Unit α)
    (fetchPage : String → Except Unit String) (urls : List String) (n : Nat)
    (hn : 0 < n) :
    ((chunked urls n).flatten = urls ∧ ∀ c ∈ chunked urls n, c.length ≤ n)
  ∧ (∀ x, (dget (fetchAll empty loads fetchPage urls n) x).isSome = true → x ∈ urls)
  ∧ ((∀ u ∈ urls, ∃ p, fetchPage u = .ok p) →
      ∀ u ∈ urls, ∀ p, fetchPage u = .ok p →
        ∀ a, extract_data empty loads p = .ok a →
          dget (fetchAll empty loads fetchPage urls n) u = some a)
  ∧ ((∀ u ∈ urls, ∃ p, fetchPage u = .ok p) →
      ∀ u ∈ urls, ∀ p, fetchPage u = .ok p → reSearchPre p.toList = none →
        dget (fetchAll empty loads fetchPage urls n) u = some empty) := by
  have hflat : (chunked urls n).flatten = urls :=
    chunked_flatten n hn urls.length urls (le_refl _)
  have hmain : (∀ u ∈ urls, ∃ p, fetchPage u = .ok p) →
      ∀ u ∈ urls, ∀ p, fetchPage u = .ok p →
        ∀ a, extract_data empty loads p = .ok a →
          dget (fetchAll empty loads fetchPage urls n) u = some a := by
    intro hsucc u hu p hp a ha
    have hsucc' : ∀ c ∈ chunked urls n, ∀ v ∈ c, ∃ q, fetchPage v = .ok q := by
      intro c hc v hv
      exact hsucc v (by rw [← hflat]; exact List.mem_flatten.mpr ⟨c, hc, hv⟩)
    have hall := fetchAllLoop_all_ok empty loads fetchPage (chunked urls n) hsucc' [] u
    rw [show fetchAll empty loads fetchPage urls n =
          fetchAllLoop empty loads fetchPage (chunked urls n) [] from rfl, hall,
      if_pos (by rw [hflat]; exact hu)]
    simp [fetchedValue, hp, ha]
  refine ⟨⟨hflat, chunked_length_le n urls.length urls (le_refl _)⟩, ?_, hmain, ?_⟩
  · intro x hx
    rcases fetchAllLoop_subset empty loads fetchPage (chunked urls n) [] x hx with
      ⟨c, hc, hxc⟩ | hemp
    · rw [← hflat]
      exact List.mem_flatten.mpr ⟨c, hc, hxc⟩
    · simp [dget] at hemp
  · intro hsucc u hu p hp hnone
    exact hmain hsucc u hu p hp empty (extract_marker_missing empty loads p hnone)

/-- Witness for C2 (amended) at the spec's example: three URLs with chunk
size 2 partition into `[u1, u2]` and `[u3]`, and with a provider returning a
marker-free page for every URL, each URL is mapped to the Absent payload. -/
theorem c2_witness :
    chunked (["u1", "u2", "u3"] : List String) 2 = [["u1", "u2"], ["u3"]]
  ∧ (chunked (["u1", "u2", "u3"] : List String) 2).flatten = ["u1", "u2", "u3"]
  ∧ dget (fetchAll (0 : Int) (fun _ => .error ()) (fun _ => .ok "page")
      ["u1", "u2", "u3"] 2) "u2" = some 0 := by
  refine ⟨by simp [chunked], ?_, ?_⟩
  · exact (c2_amended_fetchAll (0 : Int) (fun _ => .error ()) (fun _ => .ok "page")
      ["u1", "u2", "u3"] 2 (by decide)).1.1
  · exact (c2_amended_fetchAll (0 : Int) (fun _ => .error ()) (fun _ => .ok "page")
      ["u1", "u2", "u3"] 2 (by decide)).2.2.2
      (fun u _ => ⟨"page", rfl⟩) "u2" (by decide) "page" rfl (by decide)

/-- Counterexample for C3: on the spec's end-to-end scenario deck the code
produces `common = 5`, not 4 — the side-board entry's quantity is summed
into the rarity bucket as well. -/
theorem c3_counterexample :
    process_data_to_DeckWildcardTally deckScenario emptyState = .ok resScenario
  ∧ resScenario.1.common = 5
  ∧ ¬resScenario.1.common = 4 :=
  ⟨rfl, by decide, by decide⟩

/-- C3 (amended): the scenario deck yields a `DeckWildcardTally` for
`HistoricBrawl` with `common = 5` (4 from the main board plus 1 from the
side board) and `mythic = 1`, while the brawl collection holds card A with
`max_quantity = 4` (not 5) and card B with `max_quantity = 1`. -/
theorem c3_amended_end_to_end :
    process_data_to_DeckWildcardTally deckScenario emptyState = .ok resScenario
  ∧ resScenario.1.format = .BRAWL
  ∧ resScenario.1.common = 5
  ∧ resScenario.1.mythic = 1
  ∧ (dget resScenario.2.historic_brawl_wildcard_tally.cards "A").map Card.max_quantity
      = some 4
  ∧ ¬(dget resScenario.2.historic_brawl_wildcard_tally.cards "A").map Card.max_quantity
      = some 5
  ∧ (dget resScenario.2.historic_brawl_wildcard_tally.cards "B").map Card.max_quantity
      = some 1 :=
  ⟨rfl, by decide, by decide, by decide, by decide, by decide, by decide⟩

/-- Counterexample for C4: processing a deck whose only entry lacks the
`quantity` key adds 1 to the rarity bucket but inserts the card with
`max_quantity = 0`, not 1 — the two defaults differ. -/
theorem c4_counterexample :
    process_data_to_DeckWildcardTally deckNoQty emptyState = .ok resNoQty
  ∧ resNoQty.1.common = 1
  ∧ (dget resNoQty.2.historic_brawl_wildcard_tally.cards "A").map Card.max_quantity
      = some 0
  ∧ ¬(dget resNoQty.2.historic_brawl_wildcard_tally.cards "A").map Card.max_quantity
      = some 1 :=
  ⟨rfl, by decide, by decide, by decide⟩

/-- C4 (amended): for an entry without a `quantity` key, both effects still
happen for the entry and the collection fold is performed before the bucket
accumulation, but the defaults differ: the bucket accumulation uses
quantity 1 while the collection fold uses quantity 0, so a newly inserted
`Card` receives `max_quantity = 0`. -/
theorem c4_amended_defaults (e : CardEntry) (rest : List CardEntry) (f : DeckFormat)
    (t : DeckWildcardTally) (s : FetcherState) (hq : e.quantity = none) :
    processEntries f t s (e :: rest) =
      (add_card_to_collection e f s).bind (fun s' =>
        processEntries f
          (bucketAdd t (pyLower ((e.card.getD CardObj.emptyDict).rarity.getD "")) 1)
          s' rest)
  ∧ (∀ co uid s', e.card = some co → co.uniqueCardId = some uid →
      (f = .BRAWL ∨ f = .STANDARD) →
      add_card_to_collection e f s = .ok s' →
      dget (targetCards f s) uid = none →
      ∃ c, dget (targetCards f s') uid = some c ∧ c.max_quantity = 0) := by
  constructor
  · rw [processEntries_cons, hq]
    cases hadd : add_card_to_collection e f s with
    | error err => rfl
    | ok s1 => rfl
  · intro co uid s' hco huid hf hadd hnone
    obtain ⟨co1, uid1, hco1, huid1, hs'⟩ := add_ok_elim e f s s' hadd
    rw [hco1] at hco
    injection hco with hco
    subst hco
    rw [huid1] at huid
    injection huid with huid
    subst huid
    rw [hs', afu_target_dget f hf, hnone, if_pos rfl]
    refine ⟨_, rfl, ?_⟩
    show (mkNewCard co1 e).max_quantity = 0
    simp [mkNewCard, hq]

/-- Witness for C4 (amended) on a concrete quantity-free entry of card A. -/
theorem c4_witness :
    (processEntries .BRAWL tallyZero emptyState [⟨some cardA, none⟩] =
      (add_card_to_collection ⟨some cardA, none⟩ .BRAWL emptyState).bind (fun s' =>
        processEntries .BRAWL
          (bucketAdd tallyZero
            (pyLower (((⟨some cardA, none⟩ : CardEntry).card.getD CardObj.emptyDict).rarity.getD ""))
            1)
          s' []))
  ∧ ∃ c, dget (targetCards .BRAWL
      (okS (add_card_to_collection ⟨some cardA, none⟩ .BRAWL emptyState))) "A" = some c ∧
      c.max_quantity = 0 := by
  have h := c4_amended_defaults ⟨some cardA, none⟩ [] .BRAWL tallyZero emptyState rfl
  exact ⟨h.1, h.2 cardA "A" _ rfl rfl (Or.inl rfl) rfl rfl⟩

/-- C6: the only operations that touch a `CollectionWildcardTally` —
`add_card_to_collection` and a whole `process_data_to_DeckWildcardTally`
run — never remove a key and never decrease a stored `max_quantity`. -/
theorem c6_collection_invariants :
    (∀ (e : CardEntry) (f : DeckFormat) (s s' : FetcherState),
        add_card_to_collection e f s = .ok s' → stateMono s s')
  ∧ (∀ (d : DeckData) (s : FetcherState) (t : DeckWildcardTally) (s' : FetcherState),
        process_data_to_DeckWildcardTally d s = .ok (t, s') → stateMono s s') := by
  refine ⟨add_mono, ?_⟩
  intro d s t s' h
  exact processEntries_mono _ _ _ _ _ _ h

/-- Witness for C6: folding `(A, 5)` into a brawl collection that already
holds A with `max_quantity` 2 preserves both invariants. -/
theorem c6_witness :
    stateMono statePre
      (okS (add_card_to_collection (mkEntryR "A" 5 "common") .BRAWL statePre)) :=
  c6_collection_invariants.1 (mkEntryR "A" 5 "common") .BRAWL statePre _ rfl

theorem afu_brawl_insert (uid : String) (q : Int) (nc : Card) (s : FetcherState)
    (hnew : dget s.historic_brawl_wildcard_tally.cards uid = none) :
    applyFormatUpdate .BRAWL uid q nc s =
      { s with historic_brawl_wildcard_tally :=
          ⟨s.historic_brawl_wildcard_tally.cards ++ [(uid, nc)]⟩ } := by
  simp [applyFormatUpdate, hnew]

/-- Counterexample for C7: a deck entry whose rarity string is `" common "`
(whitespace-padded) increments no bucket, yet the merged `Card`'s rarity is
`COMMON`, not `UNKNOWN` — the bucket test lower-cases without stripping
while `Rarity.from_string` strips before matching. -/
theorem c7_counterexample :
    process_data_to_DeckWildcardTally deckPadRarity emptyState = .ok resPadRarity
  ∧ resPadRarity.1.common = 0
  ∧ resPadRarity.1.uncommon = 0
  ∧ resPadRarity.1.rare = 0
  ∧ resPadRarity.1.mythic = 0
  ∧ resPadRarity.1.special = 0
  ∧ (dget resPadRarity.2.historic_brawl_wildcard_tally.cards "A").map Card.rarity
      = some Rarity.COMMON
  ∧ ¬(dget resPadRarity.2.historic_brawl_wildcard_tally.cards "A").map Card.rarity
      = some Rarity.UNKNOWN :=
  ⟨rfl, by decide, by decide, by decide, by decide, by decide, by decide, by decide⟩

/-- C7 (amended): an entry whose lower-cased rarity string is not one of the
five tier names increments no bucket, and is still merged into the
collection — but with rarity `Rarity.from_string` of the string (which is
`UNKNOWN` only when the string also fails the strip-and-upper-case match);
an entry with a missing rarity increments no bucket and is merged as
`UNKNOWN`; an entry whose rarity string is a tier name in any letter case
increments exactly the matching bucket by the entry's quantity. -/
theorem c7_amended_rarity (id : String) (q : Int) (r : String) (t : DeckWildcardTally)
    (s : FetcherState)
    (hnew : dget s.historic_brawl_wildcard_tally.cards id = none) :
    processEntries .BRAWL t s [mkEntryR id q r] =
      .ok (bucketAdd t (pyLower r) q,
        { s with historic_brawl_wildcard_tally :=
            ⟨s.historic_brawl_wildcard_tally.cards ++ [(id, mkEntryCard id q (some r))]⟩ })
  ∧ (pyLower r ∉ bucketTiers → bucketAdd t (pyLower r) q = t)
  ∧ (pyLower r = "common" → bucketAdd t (pyLower r) q = { t with common := t.common + q })
  ∧ (pyLower r = "uncommon" →
      bucketAdd t (pyLower r) q = { t with uncommon := t.uncommon + q })
  ∧ (pyLower r = "rare" → bucketAdd t (pyLower r) q = { t with rare := t.rare + q })
  ∧ (pyLower r = "mythic" → bucketAdd t (pyLower r) q = { t with mythic := t.mythic + q })
  ∧ (pyLower r = "special" →
      bucketAdd t (pyLower r) q = { t with special := t.special + q })
  ∧ dget (s.historic_brawl_wildcard_tally.cards ++ [(id, mkEntryCard id q (some r))]) id
      = some (mkEntryCard id q (some r))
  ∧ (mkEntryCard id q (some r)).rarity = Rarity.from_string r
  ∧ processEntries .BRAWL t s [mkEntryNoRarity id q] =
      .ok (t,
        { s with historic_brawl_wildcard_tally :=
            ⟨s.historic_brawl_wildcard_tally.cards ++ [(id, mkEntryCard id q none)]⟩ })
  ∧ (mkEntryCard id q none).rarity = Rarity.UNKNOWN := by
  refine ⟨?_, ?_, ?_, ?_, ?_, ?_, ?_, ?_, rfl, ?_, rfl⟩
  · rw [processEntries_cons,
      show add_card_to_collection (mkEntryR id q r) .BRAWL s =
        .ok (applyFormatUpdate .BRAWL id q (mkEntryCard id q (some r)) s) from rfl,
      afu_brawl_insert id q _ s hnew]
    rfl
  · intro hr
    simp only [bucketTiers, List.mem_cons, List.mem_singleton] at hr
    push_neg at hr
    obtain ⟨h1, h2, h3, h4, h5⟩ := hr
    simp [bucketAdd, h1, h2, h3, h4, h5]
  · intro hr; rw [hr]; rfl
  · intro hr; rw [hr]; rfl
  · intro hr; rw [hr]; rfl
  · intro hr; rw [hr]; rfl
  · intro hr; rw [hr]; rfl
  · rw [dget_append_of_none _ _ _ hnew]
    simp [dget]
  · rw [processEntries_cons,
      show add_card_to_collection (mkEntryNoRarity id q) .BRAWL s =
        .ok (applyFormatUpdate .BRAWL id q (mkEntryCard id q none) s) from rfl,
      afu_brawl_insert id q _ s hnew]
    rfl

/-- Witness for C7 (amended) at the padded rarity string `" common "`: no
bucket is touched, and the merged rarity is `Rarity.from_string " common "`,
which is `COMMON`. -/
theorem c7_witness :
    bucketAdd tallyZero (pyLower " common ") 2 = tallyZero
  ∧ (mkEntryCard "A" 2 (some " common ")).rarity = Rarity.from_string " common "
  ∧ Rarity.from_string " common " = Rarity.COMMON := by
  have h := c7_amended_rarity "A" 2 " common " tallyZero emptyState rfl
  exact ⟨h.2.1 (by decide), h.2.2.2.2.2.2.2.2.1, by decide⟩

/-- Counterexample for C9: a deck whose first entry lacks the nested `card`
object makes `process_data_to_DeckWildcardTally` raise (return an error) for
the whole deck — no tally is produced, and the well-formed second entry is
not folded, contradicting "fails only that single entry". -/
theorem c9_counterexample :
    process_data_to_DeckWildcardTally deckBadEntry emptyState = .error ()
  ∧ (∃ e ∈ allCards deckBadEntry, e.card = none)
  ∧ (∃ e ∈ allCards deckBadEntry, entryMissingField e = false) :=
  ⟨rfl, by decide, by decide⟩

/-- C9 (amended): a card entry lacking the nested `card` object or one of
its required sub-fields makes the whole deck's processing raise `KeyError`:
`process_data_to_DeckWildcardTally` returns an error instead of a tally
(the exception is only caught at the chunk level by the caller). -/
theorem c9_amended_propagates (d : DeckData) (s : FetcherState)
    (h : ∃ e ∈ allCards d, entryMissingField e = true) :
    process_data_to_DeckWildcardTally d s = .error () :=
  processEntries_error_of_missing _ (allCards d) _ s h

/-- Witness for C9 (amended): a deck whose single entry lacks `uniqueCardId`
processes to an error. -/
theorem c9_witness :
    process_data_to_DeckWildcardTally deckNoIdEntry emptyState = .error () :=
  c9_amended_propagates deckNoIdEntry emptyState
    ⟨⟨some cardNoId, some 1⟩, by decide, by decide⟩

/-- C10: a deck payload with no `format` key is processed as `Standard`
(`deck_data.get("format", "standard")` parses to `STANDARD`): the tally
records `STANDARD`, the brawl collection is untouched, and every
well-formed entry's `unique_id` ends up in the standard collection. -/
theorem c10_default_standard (d : DeckData) (s : FetcherState) (t : DeckWildcardTally)
    (s' : FetcherState) (hfmt : d.format = none)
    (hrun : process_data_to_DeckWildcardTally d s = .ok (t, s')) :
    t.format = .STANDARD
  ∧ s'.historic_brawl_wildcard_tally = s.historic_brawl_wildcard_tally
  ∧ ∀ e ∈ allCards d, ∀ co uid, e.card = some co → co.uniqueCardId = some uid →
      (dget s'.standard_wildcard_tally.cards uid).isSome = true := by
  rw [process_data_noformat_eq d s hfmt] at hrun
  refine ⟨?_, ?_, ?_⟩
  · rw [processEntries_format .STANDARD _ _ _ _ _ hrun]
  · exact processEntries_std_frame _ _ _ _ _ hrun
  · intro e he co uid hco huid
    exact processEntries_inserts .STANDARD (Or.inr rfl) _ _ _ _ _ hrun e he co uid hco huid

/-- Witness for C10: a concrete format-free deck with one entry of card A
yields a `STANDARD` tally and card A present in the standard collection. -/
theorem c10_witness :
    resNoFormat.1.format = .STANDARD
  ∧ (dget resNoFormat.2.standard_wildcard_tally.cards "A").isSome = true := by
  have h := c10_default_standard deckNoFormat emptyState resNoFormat.1 resNoFormat.2 rfl rfl
  exact ⟨h.1, h.2.2 ⟨some cardA, some 2⟩ (by decide) cardA "A" rfl rfl⟩

/-- Witness for C5: an untracked format (`Commander`) leaves the state
unchanged; a brawl merge leaves the standard collection unchanged; and
merging an entry for an existing id with a different rarity string keeps
the first-seen rarity `COMMON`. -/
theorem c5_witness :
    okS (add_card_to_collection (mkEntryR "A" 5 "common") .COMMANDER statePre) = statePre
  ∧ (okS (add_card_to_collection (mkEntryR "A" 5 "common") .BRAWL
      statePre)).standard_wildcard_tally = statePre.standard_wildcard_tally
  ∧ ∃ c', dget (okS (add_card_to_collection (mkEntryR "A" 5 "banana") .BRAWL
      statePre)).historic_brawl_wildcard_tally.cards "A" = some c' ∧
      c'.rarity = Rarity.COMMON := by
  refine ⟨?_, ?_, ?_⟩
  · exact (c5_merger_frame (mkEntryR "A" 5 "common") .COMMANDER statePre _ rfl).1
      (by decide) (by decide)
  · exact (c5_merger_frame (mkEntryR "A" 5 "common") .BRAWL statePre _ rfl).2.1 rfl
  · obtain ⟨c', h1, h2⟩ :=
      ((c5_merger_frame (mkEntryR "A" 5 "banana") .BRAWL statePre _ rfl).2.2.2
        _ "A" rfl rfl).2.1 ⟨"A", "scA", "Card A", 1, "Creature", ["G"], .COMMON, 2⟩ rfl rfl
    exact ⟨c', h1, h2.2.2.2.2.2.2⟩
